import Mathlib

/-!
Verification of the probing-and-aggregation engine of `joomla_scanner.py`
(a Joomla CMS component scanner).

The Python source is shallowly embedded: network effects are made explicit
as oracle parameters (the sequence of transport outcomes a URL produces,
the parsed content of fetched pages), `async` methods become pure functions
of those oracles, and the `asyncio` scheduler (`asyncio.gather` over fixed
size chunks) becomes explicit sequential processing of batches that also
records the observable event trace (results becoming known at a batch join,
progress increments).  Python `datetime` values are modelled as integers,
`Optional[T]` as `Option T`, a raised exception as `Except.error`.
-/

namespace JoomlaScan

/-- Embeds `ScanConfig` (a pydantic model in the source).  `url` is the
target URL as a string, `timeout` (a Python float of whole-second relevance
only to the HTTP library) is modelled as an integer number of milliseconds;
no theorem depends on its value. -/
structure ScanConfig where
  url : String
  threads : Nat
  timeout : Int
  user_agent : String
  verify_ssl : Bool
  max_retries : Nat
  output_file : Option String
deriving DecidableEq, Repr

/-- Embeds the `Vulnerability` pydantic model: type, description, severity,
and the URL at which the issue was observed. -/
structure Vulnerability where
  type : String
  description : String
  severity : String
  url : String
deriving DecidableEq, Repr

/-- Embeds the `Component` pydantic model.  The Python `paths : Set[str]`
is modelled as a duplicate-free list built by `setAdd` (insertion order);
`last_modified : Optional[datetime]` is modelled as an optional string
(the parsed `Last-Modified` value). -/
structure Component where
  name : String
  paths : List String
  vulnerabilities : List Vulnerability
  version : Option String
  last_modified : Option String
deriving DecidableEq, Repr

/-- Embeds the `ScanResult` pydantic model; `scan_time` (a datetime) and
`duration` (a float of seconds) are modelled as integers. -/
structure ScanResult where
  target_url : String
  scan_time : Int
  duration : Int
  components : List Component
  total_vulnerabilities : Nat
  scan_config : ScanConfig
deriving DecidableEq, Repr

/-- The outcome of one transport-level exchange for a URL: either the
exchange succeeds and yields an HTTP status code (`httpx` returns a
response), or it fails at the transport level (`httpx.RequestError`:
connection refused, timeout, DNS failure, TLS error). -/
inductive TransportResult where
  | success (status : Nat)
  | failure
deriving DecidableEq, Repr

/-- Instrumented result of `Scanner.check_url`: the returned
`Optional[int]` status, together with the number of `session.get` attempts
issued and the number of `asyncio.sleep(1)` calls performed (the source
sleeps a fixed 1 second between consecutive attempts, despite its
"Exponential backoff" comment). -/
structure ProbeOutcome where
  status : Option Nat
  attempts : Nat
  sleeps : Nat
deriving DecidableEq, Repr

/-- Embeds `Scanner.check_url(url, retry_count)`.  The network is the
oracle `net : Nat → TransportResult`, giving the transport outcome of the
attempt with index `retry_count`.  Source:

    try:
        response = await self.session.get(url)
        return response.status_code
    except httpx.RequestError:
        if retry_count < self.config.max_retries:
            await asyncio.sleep(1)
            return await self.check_url(url, retry_count + 1)
        return None

The embedding additionally counts attempts and sleeps. -/
def check_url (net : Nat → TransportResult) (max_retries : Nat) (retry_count : Nat) :
    ProbeOutcome :=
  match net retry_count with
  | .success s => ⟨some s, 1, 0⟩
  | .failure =>
    if h : retry_count < max_retries then
      let out := check_url net max_retries (retry_count + 1)
      ⟨out.status, out.attempts + 1, out.sleeps + 1⟩
    else ⟨none, 1, 0⟩
termination_by max_retries - retry_count
decreasing_by omega

/-- Every attempt from index `r` on failing at the transport level forces
`check_url` to exhaust its retries: `max_retries - r` further attempts
after the first, one sleep between consecutive attempts, and a `none`
result. -/
theorem check_url_all_fail (net : Nat → TransportResult) (max_retries : Nat)
    (hfail : ∀ i, net i = TransportResult.failure) (r : Nat) :
    check_url net max_retries r =
      ⟨none, max_retries - r + 1, max_retries - r⟩ := by
  rw [check_url, hfail r]
  by_cases h : r < max_retries
  · simp only [h, dif_pos]
    rw [check_url_all_fail net max_retries hfail (r + 1)]
    have : max_retries - (r + 1) + 1 = max_retries - r := by omega
    simp [this]
  · simp only [h, dif_neg, not_false_iff]
    have : max_retries - r = 0 := by omega
    simp [this]
termination_by max_retries - r
decreasing_by omega

/-- Claim C2: for a URL whose every request fails at the transport level,
`check_url` issues exactly `max_retries + 1` attempts (the initial attempt
plus `max_retries` retries), sleeps the fixed 1-second delay exactly once
between consecutive attempts (`max_retries` sleeps in total), and returns
`none` ("absent") instead of raising — the embedding is a total function
whose failure branch yields `none`. -/
theorem check_url_exhausts_retries (net : Nat → TransportResult) (max_retries : Nat)
    (hfail : ∀ i, net i = TransportResult.failure) :
    check_url net max_retries 0 =
      ⟨none, max_retries + 1, max_retries⟩ := by
  simpa using check_url_all_fail net max_retries hfail 0

/-- Witness for C2 at a concrete always-failing transport with
`max_retries = 3`: 4 attempts, 3 sleeps, no status. -/
theorem check_url_exhausts_retries_witness :
    check_url (fun _ => TransportResult.failure) 3 0 = ⟨none, 4, 3⟩ :=
  check_url_exhausts_retries (fun _ => TransportResult.failure) 3 (fun _ => rfl)

/-- Claim C3: when the first transport exchange succeeds, `check_url`
returns that HTTP status code with exactly one attempt and no sleeps,
whatever the status value (4xx/5xx included); conversely more than one
attempt can only happen when the first exchange was a transport failure. -/
theorem check_url_success_no_retry (net : Nat → TransportResult) (max_retries : Nat) :
    (∀ s, net 0 = TransportResult.success s →
      check_url net max_retries 0 = ⟨some s, 1, 0⟩)
    ∧ (1 < (check_url net max_retries 0).attempts →
      net 0 = TransportResult.failure) := by
  constructor
  · intro s h
    rw [check_url, h]
  · intro hatt
    cases hs : net 0 with
    | success s =>
      rw [check_url, hs] at hatt
      simp at hatt
    | failure => rfl

/-- Witness for C3: a transport that immediately returns HTTP 404 (an
unsuccessful status) yields exactly one attempt and the status itself. -/
theorem check_url_success_no_retry_witness :
    check_url (fun _ => TransportResult.success 404) 5 0 = ⟨some 404, 1, 0⟩ :=
  (check_url_success_no_retry (fun _ => TransportResult.success 404) 5).1 404 rfl

/-- Embeds the batching loop of `Scanner.scan`:

    chunk_size = self.config.threads
    for i in range(0, len(components_db), chunk_size):
        chunk = components_db[i:i + chunk_size]

i.e. the list of slices `l[i : i + n]` for `i = 0, n, 2n, ...`.  Python
raises on a zero step, and the config validates `threads ≥ 1`, so the
`n = 0` branch (returning `[]`) is unreachable in the modelled program. -/
def chunks (n : Nat) (l : List α) : List (List α) :=
  match l with
  | [] => []
  | x :: xs =>
    if _h2 : n = 0 then []
    else (x :: xs).take n :: chunks n ((x :: xs).drop n)
termination_by l.length
decreasing_by
  simp only [List.length_drop]
  simp only [List.length_cons]
  omega

theorem chunks_nil (n : Nat) : chunks n ([] : List α) = [] := by
  rw [chunks]

theorem chunks_cons (n : Nat) (hn : n ≠ 0) (l : List α) (hl : l ≠ []) :
    chunks n l = l.take n :: chunks n (l.drop n) := by
  match l with
  | [] => exact absurd rfl hl
  | x :: xs =>
    rw [chunks]
    simp [hn]

theorem chunks_flatten (n : Nat) (hn : n ≠ 0) (l : List α) :
    (chunks n l).flatten = l := by
  by_cases hl : l = []
  · subst hl
    simp [chunks_nil]
  · rw [chunks_cons n hn l hl]
    rw [List.flatten_cons, chunks_flatten n hn (l.drop n)]
    exact List.take_append_drop n l
termination_by l.length
decreasing_by
  have : 0 < l.length := List.length_pos.mpr hl
  simp only [List.length_drop]
  omega

theorem chunks_dropLast_length (n : Nat) (hn : n ≠ 0) (l : List α) :
    ∀ c ∈ (chunks n l).dropLast, c.length = n := by
  by_cases hl : l = []
  · subst hl
    simp [chunks_nil]
  · rw [chunks_cons n hn l hl]
    by_cases hd : l.drop n = []
    · rw [hd, chunks_nil]
      simp
    · have hrest : chunks n (l.drop n) ≠ [] := by
        rw [chunks_cons n hn (l.drop n) hd]
        simp
      rw [List.dropLast_cons_of_ne_nil hrest]
      intro c hc
      rcases List.mem_cons.mp hc with h | h
      · subst h
        have hlen : n < l.length := by
          have := List.drop_eq_nil_iff.not.mp hd
          omega
        simp [List.length_take]
        omega
      · exact chunks_dropLast_length n hn (l.drop n) c h
termination_by l.length
decreasing_by
  have : 0 < l.length := List.length_pos.mpr hl
  simp only [List.length_drop]
  omega

theorem chunks_mem_length (n : Nat) (hn : n ≠ 0) (l : List α) :
    ∀ c ∈ chunks n l, 0 < c.length ∧ c.length ≤ n := by
  by_cases hl : l = []
  · subst hl
    simp [chunks_nil]
  · rw [chunks_cons n hn l hl]
    intro c hc
    rcases List.mem_cons.mp hc with h | h
    · subst h
      have : 0 < l.length := List.length_pos.mpr hl
      simp [List.length_take]
      omega
    · exact chunks_mem_length n hn (l.drop n) c h
termination_by l.length
decreasing_by
  have : 0 < l.length := List.length_pos.mpr hl
  simp only [List.length_drop]
  omega

theorem chunks_two_of_five :
    chunks 2 [0, 1, 2, 3, 4] = [[0, 1], [2, 3], [4]] := by
  rw [chunks_cons 2 (by decide) [0, 1, 2, 3, 4] (by decide)]
  norm_num
  rw [chunks_cons 2 (by decide) [2, 3, 4] (by decide)]
  norm_num
  rw [chunks_cons 2 (by decide) [4] (by decide)]
  norm_num [chunks_nil]

/-- Claim C5: `Scanner.scan` partitions the candidate list into
consecutive batches of exactly `chunk_size = threads` (the last batch
possibly smaller but never empty), covering every candidate exactly once
and in order (`flatten` of the batches is the original list); in
particular 5 candidates with batch size 2 yield exactly the batches
`[[0,1],[2,3],[4]]`, of sizes `[2,2,1]`.  That the batches are then run
strictly one after another with a full-batch join between them is the
construction of `processChunks` below, which folds over `chunks` batch by
batch and appends a batch's results only after its `gather` completes. -/
theorem scan_batches_partition (n : Nat) (hn : 0 < n) (l : List α) :
    (chunks n l).flatten = l
    ∧ (∀ c ∈ (chunks n l).dropLast, c.length = n)
    ∧ (∀ c ∈ chunks n l, 0 < c.length ∧ c.length ≤ n)
    ∧ chunks 2 [0, 1, 2, 3, 4] = [[0, 1], [2, 3], [4]]
    ∧ (chunks 2 [0, 1, 2, 3, 4]).map List.length = [2, 2, 1] := by
  refine ⟨chunks_flatten n (by omega) l, chunks_dropLast_length n (by omega) l,
    chunks_mem_length n (by omega) l, chunks_two_of_five, ?_⟩
  rw [chunks_two_of_five]
  rfl

/-- Witness for C5 at batch size 2 over the 5-element candidate list. -/
theorem scan_batches_partition_witness :
    (chunks 2 [0, 1, 2, 3, 4]).flatten = [0, 1, 2, 3, 4]
    ∧ (∀ c ∈ (chunks 2 [0, 1, 2, 3, 4]).dropLast, c.length = 2)
    ∧ (∀ c ∈ chunks 2 [0, 1, 2, 3, 4], 0 < c.length ∧ c.length ≤ 2)
    ∧ chunks 2 [0, 1, 2, 3, 4] = [[0, 1], [2, 3], [4]]
    ∧ (chunks 2 [0, 1, 2, 3, 4]).map List.length = [2, 2, 1] :=
  scan_batches_partition 2 (by decide) [0, 1, 2, 3, 4]

/-- Models `urllib.parse.urljoin` for the joins this program performs
(a root-relative path against the target URL, or a file name against a
directory URL ending in a slash): plain concatenation.  Every theorem
below is parametric in the produced URL strings — the oracles consume
them opaquely — so no result depends on the exact join behaviour. -/
def urljoin (base rel : String) : String :=
  base ++ rel

/-- Models Python `set.add` on the insertion-ordered, duplicate-free list
representation of `Set[str]`. -/
def setAdd (s : List String) (x : String) : List String :=
  if x ∈ s then s else s ++ [x]

/-- The network/parsing oracle for the exposure checks, one field per
external effect of the source:
* `status url` — the outcome of `check_url(url)` (an `Optional[int]`
  status after the retry policy; `statusFromTransport` below is the
  intended instantiation);
* `generatorMeta url` — whether the fetched page has a
  `<meta name="generator">` tag, and if so its (optional) `content`
  attribute, as inspected by `get_component_version`;
* `titleHasIndexOf url` — whether the fetched page's parsed title
  contains the literal "Index of" (`check_directory_listing`);
* `manifestVersion url` — the text of the `<version>` tag of the XML
  document at `url`, when present (`get_component_version`);
* `lastModifiedHeader url` — the successfully parsed `Last-Modified`
  header of a HEAD response, when present (`get_last_modified`; a missing
  or malformed header is `none`, matching the broad `except` clause). -/
structure Env where
  status : String → Option Nat
  titleHasIndexOf : String → Bool
  generatorMeta : String → Option (Option String)
  manifestVersion : String → Option String
  lastModifiedHeader : String → Option String

/-- The intended instantiation of `Env.status`: the status component of
`check_url` run from `retry_count = 0` over a per-URL transport oracle. -/
def statusFromTransport (transport : String → Nat → TransportResult)
    (max_retries : Nat) (url : String) : Option Nat :=
  (check_url (transport url) max_retries 0).status

/-- Embeds `Scanner.check_directory_listing`: fetch the page, true iff the
parsed title contains "Index of" (errors degrade to `false`). -/
def check_directory_listing (env : Env) (url : String) : Bool :=
  env.titleHasIndexOf url

/-- The fixed candidate list of `Scanner.check_readme_files`. -/
def readme_paths : List String :=
  ["README.txt", "readme.txt", "README.md", "readme.md"]

/-- Embeds `Scanner.check_readme_files`: true iff some README candidate
relative to `url` resolves with HTTP 200. -/
def check_readme_files (env : Env) (url : String) : Bool :=
  readme_paths.any (fun path => env.status (urljoin url path) == some 200)

/-- The fixed candidate list of `Scanner.check_manifest_files`. -/
def manifest_paths : List String :=
  ["MANIFEST.xml", "manifest.xml"]

/-- Embeds `Scanner.check_manifest_files`: true iff some manifest
candidate relative to `url` resolves with HTTP 200. -/
def check_manifest_files (env : Env) (url : String) : Bool :=
  manifest_paths.any (fun path => env.status (urljoin url path) == some 200)

/-- Embeds `Scanner.get_component_version`: first the generator meta tag
(whose `content` attribute may itself be missing, in which case the
source returns `None` without falling through), then, if `manifest.xml`
resolves with 200, the `<version>` tag of the manifest. -/
def get_component_version (env : Env) (url : String) : Option String :=
  match env.generatorMeta url with
  | some content => content
  | none =>
    if env.status (urljoin url "manifest.xml") = some 200 then
      env.manifestVersion (urljoin url "manifest.xml")
    else none

/-- Embeds `Scanner.get_last_modified`: the parsed `Last-Modified` header
of a HEAD response, or `none`. -/
def get_last_modified (env : Env) (url : String) : Option String :=
  env.lastModifiedHeader url

/-- The three candidate paths `Scanner.check_component` constructs for a
candidate identifier: front-end, administrator, query-string. -/
def component_paths (component : String) : List String :=
  ["/components/" ++ component ++ "/",
   "/administrator/components/" ++ component ++ "/",
   "/index.php?option=" ++ component]

/-- The body of the `for path in paths:` loop of `Scanner.check_component`,
with the loop state (`found_paths`, `vulnerabilities`, `version`,
`last_modified`) passed explicitly.  When a path's URL resolves with
status 200 the path is recorded, each positive exposure check appends its
`Vulnerability`, and `version` / `last_modified` are overwritten
unconditionally with this URL's extraction results. -/
def check_component_loop (env : Env) (base_url : String) :
    List String → List String → List Vulnerability →
    Option String → Option String →
    List String × List Vulnerability × Option String × Option String
  | [], found_paths, vulnerabilities, version, last_modified =>
    (found_paths, vulnerabilities, version, last_modified)
  | path :: rest, found_paths, vulnerabilities, version, last_modified =>
    let url := urljoin base_url path
    if env.status url = some 200 then
      check_component_loop env base_url rest
        (setAdd found_paths path)
        (vulnerabilities
          ++ (if check_directory_listing env url then
                [⟨"Directory Listing",
                  "Directory listing is enabled, exposing sensitive information",
                  "Medium", url⟩]
              else [])
          ++ (if check_readme_files env url then
                [⟨"Exposed Documentation",
                  "README files are exposed, revealing component information",
                  "Low", url⟩]
              else [])
          ++ (if check_manifest_files env url then
                [⟨"Exposed Manifest",
                  "Manifest files are exposed, revealing component details",
                  "Low", url⟩]
              else []))
        (get_component_version env url)
        (get_last_modified env url)
    else
      check_component_loop env base_url rest
        found_paths vulnerabilities version last_modified

/-- Embeds `Scanner.check_component`: run the loop over the three
candidate paths starting from empty state; if any path was found, build
the `Component`, else return `none`. -/
def check_component (env : Env) (base_url : String) (component : String) :
    Option Component :=
  let st := check_component_loop env base_url (component_paths component)
    [] [] none none
  if st.1 ≠ [] then
    some ⟨component, st.1, st.2.1, st.2.2.1, st.2.2.2⟩
  else none

/-- The sublist of candidate paths whose URL resolves with HTTP 200, in
loop order — the paths the `status == 200` branch fires for. -/
def foundPaths (env : Env) (base_url : String) (ps : List String) : List String :=
  ps.filter (fun p => decide (env.status (urljoin base_url p) = some 200))

theorem foundPaths_nil (env : Env) (b : String) : foundPaths env b [] = [] := rfl

theorem foundPaths_cons (env : Env) (b p : String) (rest : List String) :
    foundPaths env b (p :: rest) =
      if env.status (urljoin b p) = some 200 then p :: foundPaths env b rest
      else foundPaths env b rest := by
  by_cases h : env.status (urljoin b p) = some 200 <;>
    simp [foundPaths, List.filter_cons, h]

theorem setAdd_ne_nil (s : List String) (x : String) : setAdd s x ≠ [] := by
  unfold setAdd
  split
  · exact List.ne_nil_of_mem (by assumption)
  · simp

theorem check_component_loop_fst_eq_nil (env : Env) (b : String) (ps : List String) :
    ∀ fp vs v lm, (check_component_loop env b ps fp vs v lm).1 = [] ↔
      (fp = [] ∧ foundPaths env b ps = []) := by
  induction ps with
  | nil =>
    intro fp vs v lm
    simp [check_component_loop, foundPaths_nil]
  | cons p rest ih =>
    intro fp vs v lm
    simp only [check_component_loop]
    by_cases h : env.status (urljoin b p) = some 200
    · rw [if_pos h, ih]
      simp [foundPaths_cons, h, setAdd_ne_nil]
    · rw [if_neg h, ih]
      simp [foundPaths_cons, h]

theorem check_component_loop_version (env : Env) (b : String) (ps : List String) :
    ∀ fp vs v lm, (check_component_loop env b ps fp vs v lm).2.2 =
      match (foundPaths env b ps).getLast? with
      | none => (v, lm)
      | some lp => (get_component_version env (urljoin b lp),
                    get_last_modified env (urljoin b lp)) := by
  induction ps with
  | nil =>
    intro fp vs v lm
    simp [check_component_loop, foundPaths_nil]
  | cons p rest ih =>
    intro fp vs v lm
    simp only [check_component_loop]
    by_cases h : env.status (urljoin b p) = some 200
    · rw [if_pos h, ih, foundPaths_cons env b p rest, if_pos h]
      cases hfr : foundPaths env b rest with
      | nil => simp
      | cons q qs =>
        rw [List.getLast?_cons_cons]
        simp [List.getLast?_cons]
    · rw [if_neg h, ih, foundPaths_cons env b p rest, if_neg h]

/-- Claim C4: `check_component` produces a `Component` iff at least one of
the three constructed candidate paths resolves with HTTP 200 (otherwise it
returns `none` and no `Component` exists for that candidate), and every
`Component` it produces has a non-empty list of found paths. -/
theorem check_component_some_iff_path_resolves (env : Env) (base_url component : String) :
    ((check_component env base_url component).isSome ↔
      ∃ p ∈ component_paths component, env.status (urljoin base_url p) = some 200)
    ∧ ∀ c, check_component env base_url component = some c → c.paths ≠ [] := by
  have hmain : (check_component_loop env base_url (component_paths component)
      [] [] none none).1 = [] ↔
      foundPaths env base_url (component_paths component) = [] := by
    rw [check_component_loop_fst_eq_nil]
    simp
  have hite : check_component env base_url component =
      (if (check_component_loop env base_url (component_paths component)
            [] [] none none).1 = []
       then none
       else some ⟨component,
         (check_component_loop env base_url (component_paths component)
           [] [] none none).1,
         (check_component_loop env base_url (component_paths component)
           [] [] none none).2.1,
         (check_component_loop env base_url (component_paths component)
           [] [] none none).2.2.1,
         (check_component_loop env base_url (component_paths component)
           [] [] none none).2.2.2⟩) := by
    rw [check_component]
    by_cases h : (check_component_loop env base_url (component_paths component)
        [] [] none none).1 = [] <;> simp [h]
  constructor
  · rw [hite]
    by_cases h : (check_component_loop env base_url (component_paths component)
        [] [] none none).1 = []
    · rw [if_pos h]
      have hfp := hmain.mp h
      unfold foundPaths at hfp
      rw [List.filter_eq_nil_iff] at hfp
      simp only [Option.isSome_none, Bool.false_eq_true, false_iff]
      rintro ⟨p, hp, hs⟩
      exact absurd (decide_eq_true hs) (hfp p hp)
    · rw [if_neg h]
      have hfp : foundPaths env base_url (component_paths component) ≠ [] :=
        fun hc => h (hmain.mpr hc)
      simp only [Option.isSome_some, true_iff]
      rcases List.exists_mem_of_ne_nil _ hfp with ⟨p, hp⟩
      unfold foundPaths at hp
      rw [List.mem_filter] at hp
      exact ⟨p, hp.1, of_decide_eq_true hp.2⟩
  · intro c hc
    rw [hite] at hc
    by_cases h : (check_component_loop env base_url (component_paths component)
        [] [] none none).1 = []
    · rw [if_pos h] at hc
      exact absurd hc (by simp)
    · rw [if_neg h] at hc
      injection hc with hc2
      rw [← hc2]
      exact h

/-- The concrete environment for the C4 witness: only the front-end path
URL of `com_x` resolves (HTTP 200); every other URL answers 404, so no
exposure check fires. -/
def envSingle : Env where
  status := fun u => if u = "b/components/com_x/" then some 200 else some 404
  titleHasIndexOf := fun _ => false
  generatorMeta := fun _ => none
  manifestVersion := fun _ => none
  lastModifiedHeader := fun _ => none

/-- Witness for C4: in `envSingle` the candidate `com_x` yields a
`Component` (its front-end path resolves) whose path list is non-empty. -/
theorem check_component_some_iff_path_resolves_witness :
    (check_component envSingle "b" "com_x").isSome
    ∧ Component.paths ⟨"com_x", ["/components/com_x/"], [], none, none⟩ ≠ [] :=
  ⟨(check_component_some_iff_path_resolves envSingle "b" "com_x").1.mpr
      ⟨"/components/com_x/", by decide, by decide⟩,
    (check_component_some_iff_path_resolves envSingle "b" "com_x").2
      ⟨"com_x", ["/components/com_x/"], [], none, none⟩ (by decide)⟩

/-- Claim C9: every `Component` produced by `check_component` carries as
`version` and `last_modified` exactly the extraction results of the most
recently processed found path, in the fixed loop order front-end →
administrator → query-string: the loop overwrites both fields
unconditionally at each found path, so the last found path wins (even
when its extraction is `none` and an earlier found path had a value). -/
theorem check_component_last_found_wins (env : Env) (base_url component : String)
    (c : Component) (h : check_component env base_url component = some c) :
    ∃ lp, (foundPaths env base_url (component_paths component)).getLast? = some lp
      ∧ c.version = get_component_version env (urljoin base_url lp)
      ∧ c.last_modified = get_last_modified env (urljoin base_url lp) := by
  rw [check_component] at h
  by_cases hnil : (check_component_loop env base_url (component_paths component)
      [] [] none none).1 = []
  · rw [if_neg (by simpa using hnil)] at h
    exact absurd h (by simp)
  · rw [if_pos (by simpa using hnil)] at h
    have hfp : foundPaths env base_url (component_paths component) ≠ [] := by
      intro hc
      exact hnil ((check_component_loop_fst_eq_nil env base_url
        (component_paths component) [] [] none none).mpr ⟨rfl, hc⟩)
    have hver := check_component_loop_version env base_url
      (component_paths component) [] [] none none
    obtain rfl := Option.some.inj h
    cases hfl : foundPaths env base_url (component_paths component) with
    | nil => exact absurd hfl hfp
    | cons q qs =>
      obtain ⟨lp, hlp⟩ : ∃ lp, (q :: qs).getLast? = some lp :=
        ⟨_, List.getLast?_cons⟩
      refine ⟨lp, hlp, ?_, ?_⟩
      · show ((check_component_loop env base_url (component_paths component)
            [] [] none none).2.2).1 = _
        rw [hver, hfl, hlp]
      · show ((check_component_loop env base_url (component_paths component)
            [] [] none none).2.2).2 = _
        rw [hver, hfl, hlp]

/-- The concrete environment for the C9 witness: the front-end and the
administrator path URLs of `com_x` both resolve with HTTP 200 and carry
different generator-meta versions and Last-Modified headers; all other
URLs answer 404. -/
def envTwo : Env where
  status := fun u =>
    if u = "b/components/com_x/" ∨ u = "b/administrator/components/com_x/"
    then some 200 else some 404
  titleHasIndexOf := fun _ => false
  generatorMeta := fun u =>
    if u = "b/administrator/components/com_x/" then some (some "2.0")
    else some (some "1.0")
  manifestVersion := fun _ => none
  lastModifiedHeader := fun u =>
    if u = "b/administrator/components/com_x/" then some "Mon, 02 Jan 2006"
    else some "Sun, 01 Jan 2006"

/-- Witness for C9: with two found paths, the produced `Component` holds
the version "2.0" and Last-Modified of the administrator path — the later
found path — not the "1.0" extracted from the front-end path. -/
theorem check_component_last_found_wins_witness :
    ∃ lp, (foundPaths envTwo "b" (component_paths "com_x")).getLast? = some lp
      ∧ (some "2.0" : Option String) = get_component_version envTwo (urljoin "b" lp)
      ∧ (some "Mon, 02 Jan 2006" : Option String) =
          get_last_modified envTwo (urljoin "b" lp) :=
  check_component_last_found_wins envTwo "b" "com_x"
    ⟨"com_x", ["/components/com_x/", "/administrator/components/com_x/"], [],
      some "2.0", some "Mon, 02 Jan 2006"⟩ (by decide)

/-- An observable scheduler event of `Scanner.scan`:
* `known a r` — candidate `a`'s result `r` has become known to the
  scheduler (at the `asyncio.gather` join of `a`'s batch);
* `prog a` — the `progress.advance(task)` increment emitted for
  candidate `a` in the per-result loop that follows the join. -/
inductive ScanEv (α : Type) where
  | known (a : α) (r : Option Component)
  | prog (a : α)
deriving DecidableEq, Repr

/-- Embeds `await asyncio.gather(*tasks)` (no `return_exceptions`): the
results of the batch in dispatch order, unless some task raises, in which
case the first exception propagates and every result of the batch is
discarded. -/
def gather (f : α → Except ε β) : List α → Except ε (List β)
  | [] => Except.ok []
  | a :: rest =>
    match f a with
    | Except.error e => Except.error e
    | Except.ok b =>
      match gather f rest with
      | Except.error e => Except.error e
      | Except.ok bs => Except.ok (b :: bs)

/-- Embeds the batch loop of `Scanner.scan`:

    for i in range(0, len(components_db), chunk_size):
        chunk = components_db[i:i + chunk_size]
        tasks = [self.check_component(comp) for comp in chunk]
        results = await asyncio.gather(*tasks)
        for result in results:
            if result:
                self.components.append(result)
            progress.advance(task)

The state is `(self.components, events so far)`.  A batch whose `gather`
raises makes the whole scan raise (`Except.error`, carrying the state at
the abort so that theorems can speak about what was and was not
processed); otherwise the batch's found components are appended in result
order, its results become known at the join, and one progress increment
is emitted per result, after which the next batch starts. -/
def processChunks (prober : α → Except ε (Option Component)) :
    List (List α) → List Component × List (ScanEv α) →
    Except (List Component × List (ScanEv α)) (List Component × List (ScanEv α))
  | [], st => Except.ok st
  | chunk :: rest, st =>
    match gather prober chunk with
    | Except.error _ => Except.error st
    | Except.ok results =>
      processChunks prober rest
        (st.1 ++ results.filterMap id,
         st.2 ++ (chunk.zip results).map (fun pr => ScanEv.known pr.1 pr.2)
              ++ chunk.map ScanEv.prog)

/-- Embeds `Scanner.scan`: chunk the candidate list by
`chunk_size = self.config.threads` and process the batches strictly in
sequence from the empty state. -/
def scan (prober : α → Except ε (Option Component)) (chunk_size : Nat)
    (components_db : List α) :
    Except (List Component × List (ScanEv α)) (List Component × List (ScanEv α)) :=
  processChunks prober (chunks chunk_size components_db) ([], [])

/-- The candidates credited by progress increments, in emission order. -/
def progCands : List (ScanEv α) → List α :=
  List.filterMap (fun e => match e with | ScanEv.prog a => some a | _ => none)

/-- The event trace of a scan whose prober never raises: batch blocks in
batch order, each block being the batch's results becoming known at its
join followed by one progress increment per batch member — so every
progress increment of a batch is ordered after that batch's join and
before every event of every later batch. -/
def pureTrace (p : α → Option Component) (bs : List (List α)) : List (ScanEv α) :=
  (bs.map (fun ch =>
    (ch.zip (ch.map p)).map (fun pr => ScanEv.known pr.1 pr.2)
      ++ ch.map ScanEv.prog)).flatten

theorem gather_pure (f : α → β) (l : List α) :
    gather (fun a => (Except.ok (f a) : Except ε β)) l = Except.ok (l.map f) := by
  induction l with
  | nil => rfl
  | cons a t ih => simp [gather, ih]

theorem zip_map_self (g : α → β → γ) (p : α → β) (l : List α) :
    (l.zip (l.map p)).map (fun pr => g pr.1 pr.2) = l.map (fun a => g a (p a)) := by
  induction l with
  | nil => rfl
  | cons a t ih => simp [ih]

theorem progCands_append (l1 l2 : List (ScanEv α)) :
    progCands (l1 ++ l2) = progCands l1 ++ progCands l2 :=
  List.filterMap_append l1 l2 _

theorem progCands_knowns (l : List (α × Option Component)) :
    progCands (l.map (fun pr => ScanEv.known pr.1 pr.2)) = [] := by
  induction l with
  | nil => rfl
  | cons a t ih => simp [progCands]

theorem progCands_progs (l : List α) :
    progCands (l.map ScanEv.prog) = l := by
  induction l with
  | nil => rfl
  | cons a t ih => simpa [progCands] using ih

theorem processChunks_pure (p : α → Option Component) (bs : List (List α)) :
    ∀ st, processChunks (fun a => (Except.ok (p a) : Except ε (Option Component))) bs st =
      Except.ok (st.1 ++ bs.flatten.filterMap p, st.2 ++ pureTrace p bs) := by
  induction bs with
  | nil => intro st; simp [processChunks, pureTrace]
  | cons ch rest ih =>
    intro st
    simp only [processChunks, gather_pure]
    rw [ih]
    simp [pureTrace, List.filterMap_map]

theorem gather_ok_of_forall (prober : α → Except ε β) (l : List α)
    (hok : ∀ a ∈ l, ∃ r, prober a = Except.ok r) :
    ∃ rs, gather prober l = Except.ok rs ∧ rs.length = l.length := by
  induction l with
  | nil => exact ⟨[], rfl, rfl⟩
  | cons a t ih =>
    obtain ⟨r, hr⟩ := hok a (by simp)
    obtain ⟨rs, hrs, hlen⟩ := ih (fun x hx => hok x (by simp [hx]))
    exact ⟨r :: rs, by simp [gather, hr, hrs], by simp [hlen]⟩

theorem processChunks_ok (prober : α → Except ε (Option Component)) (bs : List (List α)) :
    ∀ st, (∀ a ∈ bs.flatten, ∃ r, prober a = Except.ok r) →
      ∃ comps evs, processChunks prober bs st = Except.ok (st.1 ++ comps, st.2 ++ evs)
        ∧ progCands evs = bs.flatten := by
  induction bs with
  | nil =>
    intro st _
    exact ⟨[], [], by simp [processChunks], rfl⟩
  | cons ch rest ih =>
    intro st hok
    obtain ⟨rs, hrs, hlen⟩ := gather_ok_of_forall prober ch
      (fun a ha => hok a (by simp [ha]))
    obtain ⟨comps, evs, heq, hprog⟩ := ih
      (st.1 ++ rs.filterMap id,
       st.2 ++ (ch.zip rs).map (fun pr => ScanEv.known pr.1 pr.2)
            ++ ch.map ScanEv.prog)
      (fun a ha => hok a (by simp [ha]))
    refine ⟨rs.filterMap id ++ comps,
      (ch.zip rs).map (fun pr => ScanEv.known pr.1 pr.2)
        ++ ch.map ScanEv.prog ++ evs, ?_, ?_⟩
    · simp only [processChunks, hrs]
      rw [heq]
      simp [List.append_assoc]
    · simp [progCands_append, progCands_knowns, progCands_progs, hprog]

theorem progCands_pureTrace (p : α → Option Component) (bs : List (List α)) :
    progCands (pureTrace p bs) = bs.flatten := by
  induction bs with
  | nil => rfl
  | cons ch rest ih =>
    simp only [pureTrace, List.map_cons, List.flatten_cons] at ih ⊢
    rw [progCands_append, progCands_append, progCands_knowns, progCands_progs, ih]
    simp

theorem chunks_two_of_three :
    chunks 2 [0, 1, 2] = [[0, 1], [2]] := by
  rw [chunks_cons 2 (by decide) [0, 1, 2] (by decide)]
  norm_num
  rw [chunks_cons 2 (by decide) [2] (by decide)]
  norm_num [chunks_nil]

/-- A concrete `Component` a successful candidate check would produce. -/
def comp6 : Component :=
  ⟨"com_found", ["/components/com_found/"], [], none, none⟩

/-- A prober for which candidate 0's checks raise an unexpected internal
error while candidates 1 and 2 succeed and would produce `comp6`. -/
def prober6 : Nat → Except Unit (Option Component) :=
  fun a => if a = 0 then Except.error () else Except.ok (some comp6)

/-- Counterexample to claim C6 as stated: with batch size 2 and
candidates `[0, 1, 2]`, an unexpected internal error during candidate 0's
checks aborts the whole scan — `asyncio.gather` without
`return_exceptions` propagates the exception out of `Scanner.scan`, there
is no per-candidate `try/except` — so candidate 1 (same batch) and
candidate 2 (a later batch) are not processed: no component is recorded
and no progress increment is emitted, although both candidates' checks
succeed in isolation. -/
theorem scan_error_aborts_counterexample :
    scan prober6 2 [0, 1, 2] = Except.error ([], [])
    ∧ prober6 1 = Except.ok (some comp6)
    ∧ prober6 2 = Except.ok (some comp6) := by
  refine ⟨?_, rfl, rfl⟩
  rw [scan, chunks_two_of_three]
  rfl

/-- Claim C6 amended: a candidate whose checks merely come back empty
(the prober returns `none`/absent) never aborts the batch or the scan —
whenever no candidate of the scan raises, the scan completes and every
candidate is processed exactly once (one progress increment each, in
order).  An unexpected internal error, by contrast, aborts the scan
(see the counterexample). -/
theorem scan_no_raise_processes_all (prober : α → Except ε (Option Component))
    (n : Nat) (hn : 0 < n) (cands : List α)
    (hok : ∀ a ∈ cands, ∃ r, prober a = Except.ok r) :
    ∃ comps evs, scan prober n cands = Except.ok (comps, evs)
      ∧ progCands evs = cands := by
  obtain ⟨comps, evs, heq, hprog⟩ := processChunks_ok prober (chunks n cands) ([], [])
    (by rw [chunks_flatten n (by omega) cands]; exact hok)
  refine ⟨comps, evs, ?_, ?_⟩
  · rw [scan]
    exact heq
  · rw [hprog, chunks_flatten n (by omega) cands]

/-- A prober that never raises: candidate 1 yields a component, the
others come back absent. -/
def proberW : Nat → Except Unit (Option Component) :=
  fun a => Except.ok (if a = 1 then some comp6 else none)

/-- Witness for the amended C6: a scan over `[0, 1, 2]` with batch size 2,
where candidates 0 and 2 come back absent, completes and credits one
progress increment to each of the three candidates. -/
theorem scan_no_raise_processes_all_witness :
    ∃ comps evs, scan proberW 2 [0, 1, 2] = Except.ok (comps, evs)
      ∧ progCands evs = [0, 1, 2] :=
  scan_no_raise_processes_all proberW 2 (by decide) [0, 1, 2]
    (fun a _ => ⟨_, rfl⟩)

/-- Claim C7: for a scan whose prober raises no exception, exactly one
progress increment is emitted per candidate, in candidate order
(`progCands` of the trace is the candidate list), and the trace is the
concatenation of per-batch blocks — each batch's results become known at
its `gather` join and its increments are emitted right after that join,
hence before every event of every later batch.  Within one batch all
results become known together at the join, so "a candidate whose result
becomes known later" means a candidate of a later batch. -/
theorem scan_progress_per_candidate (p : α → Option Component)
    (n : Nat) (hn : 0 < n) (cands : List α) :
    ∃ comps, scan (fun a => (Except.ok (p a) : Except Unit (Option Component))) n cands
        = Except.ok (comps, pureTrace p (chunks n cands))
      ∧ progCands (pureTrace p (chunks n cands)) = cands := by
  refine ⟨cands.filterMap p, ?_, ?_⟩
  · rw [scan, processChunks_pure]
    simp [chunks_flatten n (by omega) cands]
  · rw [progCands_pureTrace, chunks_flatten n (by omega) cands]

/-- Witness for C7: one candidate, batch size 1, absent result — the scan
completes with the per-batch trace and credits the one candidate. -/
theorem scan_progress_per_candidate_witness :
    ∃ comps, scan (fun a => (Except.ok ((fun _ => none) a) : Except Unit (Option Component))) 1 [7]
        = Except.ok (comps, pureTrace (fun _ => none) (chunks 1 [7]))
      ∧ progCands (pureTrace (fun _ => (none : Option Component)) (chunks 1 [7])) = [7] :=
  scan_progress_per_candidate (fun _ => none) 1 (by decide) [7]

/-- Claim C10: with a prober that raises no exception, the component list
a scan accumulates is exactly `cands.filterMap p` — the found components
in the order their candidates appeared in the input list: `gather`
returns a batch's results in dispatch order, found components are
appended in that order, and batches run sequentially in list order. -/
theorem scan_components_preserve_candidate_order (p : α → Option Component)
    (n : Nat) (hn : 0 < n) (cands : List α) :
    ∃ evs, scan (fun a => (Except.ok (p a) : Except Unit (Option Component))) n cands
        = Except.ok (cands.filterMap p, evs) := by
  refine ⟨pureTrace p (chunks n cands), ?_⟩
  rw [scan, processChunks_pure]
  simp [chunks_flatten n (by omega) cands]

/-- The prober for the C10 witness: every candidate is found, with the
candidate number as component name. -/
def proberNamed : Nat → Option Component :=
  fun a => some ⟨toString a, ["/p/"], [], none, none⟩

/-- Witness for C10: three candidates in two batches produce the
component list `[1, 2, 3].filterMap proberNamed` — one component per
candidate, in input order. -/
theorem scan_components_preserve_candidate_order_witness :
    ∃ evs, scan (fun a => (Except.ok (proberNamed a) : Except Unit (Option Component))) 2 [1, 2, 3]
        = Except.ok ([1, 2, 3].filterMap proberNamed, evs) :=
  scan_components_preserve_candidate_order proberNamed 2 (by decide) [1, 2, 3]

/-- Embeds `Scanner.generate_report`.  The source reads the clock
(`end_time = datetime.now()`) inside the method; the embedding makes that
reading an explicit `end_time` argument.  Everything else is computed
from `self.config`, `self.start_time` and `self.components`, which are
the remaining arguments; the function takes no network oracle — the
aggregator performs no network I/O. -/
def generate_report (config : ScanConfig) (start_time end_time : Int)
    (components : List Component) : ScanResult where
  target_url := config.url
  scan_time := start_time
  duration := end_time - start_time
  components := components
  total_vulnerabilities := (components.map (fun c => c.vulnerabilities.length)).sum
  scan_config := config

/-- Claim C1: in every report `generate_report` produces, the
`total_vulnerabilities` field equals the sum of the lengths of the
`vulnerabilities` lists over the report's own `components` list — the
standing invariant holds by construction. -/
theorem generate_report_total_vulnerabilities_eq_sum
    (config : ScanConfig) (start_time end_time : Int) (components : List Component) :
    (generate_report config start_time end_time components).total_vulnerabilities =
      ((generate_report config start_time end_time components).components.map
        (fun c => c.vulnerabilities.length)).sum := rfl

/-- A concrete configuration for the report-aggregator theorems. -/
def cfg0 : ScanConfig :=
  ⟨"http://t", 10, 5000, "UA", false, 3, none⟩

/-- Counterexample to claim C8 as stated: `generate_report` reads the
wall clock (`end_time = datetime.now()`), which is not among the claim's
inputs (config, start time, components); two calls with identical config,
start time and components made at different clock readings yield
different `ScanResult`s (their `duration` fields differ), so the
aggregator is not deterministic in those three inputs alone. -/
theorem generate_report_clock_dependent_counterexample :
    generate_report cfg0 0 1 [] ≠ generate_report cfg0 0 2 [] := by
  intro h
  have hd := congrArg ScanResult.duration h
  simp [generate_report] at hd

/-- Claim C8 amended: `generate_report` is pure and deterministic given
its inputs together with the clock reading at the time of the call —
two calls with equal config, start time, end time and components yield
equal `ScanResult`s — and it performs no network I/O (the embedding
takes no network oracle). -/
theorem generate_report_deterministic (c1 c2 : ScanConfig) (s1 s2 e1 e2 : Int)
    (k1 k2 : List Component) (hc : c1 = c2) (hs : s1 = s2) (he : e1 = e2)
    (hk : k1 = k2) :
    generate_report c1 s1 e1 k1 = generate_report c2 s2 e2 k2 := by
  subst hc
  subst hs
  subst he
  subst hk
  rfl

/-- Witness for the amended C8 at concrete equal inputs. -/
theorem generate_report_deterministic_witness :
    generate_report cfg0 0 1 [] = generate_report cfg0 0 1 [] :=
  generate_report_deterministic cfg0 cfg0 0 0 1 1 [] [] rfl rfl rfl rfl

end JoomlaScan
